import Mathlib

/-!
Verification of the tool-calling agent-loop pattern of the repository's
LangGraph scripts (`src/langgraph/basics/`): the arithmetic tools, the
router condition, the graph wiring of each script, the tool-executor
behaviour, and the final-answer extraction of the react-agent script.

Machine integers of the source are modelled as `Int` (Python integers are
unbounded); Python's float division is modelled as exact division in `Rat`;
code that can raise is modelled with `Except`, the error value recording
the exception text.
-/

/-- A tool-call request emitted by the assistant: a tool name, an argument
mapping (all tools of the repository take integer arguments), and a call
identifier. -/
structure ToolCall where
  name : String
  args : List (String × Int)
  id : String
deriving DecidableEq, Repr

/-- A conversation message, one constructor per message role used by the
scripts: `SystemMessage`, `HumanMessage`, `AIMessage` (which carries the
pending tool-call requests), `ToolMessage` (a tool result tagged with the
originating call identifier). -/
inductive Message where
  | system (content : String)
  | human (content : String)
  | ai (content : String) (tool_calls : List ToolCall)
  | tool (content : String) (tool_call_id : String)
deriving DecidableEq, Repr

/-- The tool-call requests carried by a message: nonempty only on an
assistant message. -/
def Message.toolCalls : Message → List ToolCall
  | .ai _ tcs => tcs
  | _ => []

/-- The call identifier of a message when it is a tool result. -/
def Message.resultId : Message → Option String
  | .tool _ cid => some cid
  | _ => none

/-- A registered tool: a unique name and a callable on the argument
mapping, returning the result rendered as text or an error text. -/
structure Tool where
  name : String
  run : List (String × Int) → Except String String

/-- Look up an argument by name in a tool call's argument mapping. -/
def getArg (args : List (String × Int)) (key : String) : Option Int :=
  (args.find? (fun p => p.1 = key)).map (fun p => p.2)

namespace SimpleAgent

/-- `multiply` of `src/langgraph/basics/simple-agent.py`: `return a * b`. -/
def multiply (a b : Int) : Int := a * b

/-- `add` of `src/langgraph/basics/simple-agent.py` (registered under the
tool name "add_numbers" by the decorator): `return a + b`. -/
def add (a b : Int) : Int := a + b

/-- `divide` of `src/langgraph/basics/simple-agent.py`: `return a / b`.
Python's `/` on b = 0 raises `ZeroDivisionError`; the raise is modelled as
the `Except.error` value. The float result is modelled as the exact
rational quotient. -/
def divide (a b : Int) : Except String Rat :=
  if b = 0 then .error "ZeroDivisionError: division by zero"
  else .ok ((a : Rat) / (b : Rat))

/-- The `multiply` tool's callable on an argument mapping. -/
def multiplyTool : Tool :=
  ⟨"multiply", fun args =>
    match getArg args "a", getArg args "b" with
    | some a, some b => .ok (toString (multiply a b))
    | _, _ => .error "validation error: missing argument"⟩

/-- The `add` tool's callable, registered as "add_numbers". -/
def addTool : Tool :=
  ⟨"add_numbers", fun args =>
    match getArg args "a", getArg args "b" with
    | some a, some b => .ok (toString (add a b))
    | _, _ => .error "validation error: missing argument"⟩

/-- The `divide` tool's callable. -/
def divideTool : Tool :=
  ⟨"divide", fun args =>
    match getArg args "a", getArg args "b" with
    | some a, some b =>
      match divide a b with
      | .ok q => .ok (toString q)
      | .error e => .error e
    | _, _ => .error "validation error: missing argument"⟩

/-- The registry `tools = [add, multiply, divide]` of simple-agent.py. -/
def tools : List Tool := [addTool, multiplyTool, divideTool]

end SimpleAgent

namespace SimpleToolCalling

/-- `add` of `src/langgraph/basics/simple-tool-calling.py`: `return a + b`. -/
def add (a b : Int) : Int := a + b

/-- `multiply` of `src/langgraph/basics/simple-tool-calling.py`:
`return a * b`. -/
def multiply (a b : Int) : Int := a * b

end SimpleToolCalling

/-- The pending tool-call requests of a history: those carried by its last
message (an empty history, or one ending in a non-assistant message, has
none pending). -/
def pendingToolCalls (messages : List Message) : List ToolCall :=
  match messages.getLast? with
  | some m => m.toolCalls
  | none => []

/-- Modelled from the spec: `tools_condition` (imported from
`langgraph.prebuilt`, not part of the repository's own sources) inspects
the last message of the history and returns the name of the Tool Executor
node when it is an assistant message carrying one or more pending
tool-call requests, and the name of the terminal state otherwise. -/
def tools_condition (messages : List Message) : String :=
  match messages.getLast? with
  | some (Message.ai _ tcs) => if tcs.isEmpty then "__end__" else "tools"
  | _ => "__end__"

/-- Look up a tool by exact name match in a registry. -/
def lookupTool (registry : List Tool) (name : String) : Option Tool :=
  registry.find? (fun t => t.name = name)

/-- The error text substituted for a request naming no registered tool. -/
def unknownToolError (name : String) : String :=
  "Error: " ++ name ++ " is not a valid tool, try one of the registered tools."

/-- Modelled from the spec: the prebuilt `ToolNode` resolves one tool-call
request by exact name match against the registry; a match executes the
tool, a failure of the tool or a missing tool is surfaced as an error-text
Tool Result rather than a thrown fault, always tagged with the request's
call identifier. -/
def execToolCall (registry : List Tool) (tc : ToolCall) : Message :=
  match lookupTool registry tc.name with
  | some t =>
    match t.run tc.args with
    | .ok s => .tool s tc.id
    | .error e => .tool e tc.id
  | none => .tool (unknownToolError tc.name) tc.id

/-- Modelled from the spec: the prebuilt `ToolNode` executes the pending
tool-call requests of the last message and appends one Tool Result per
request, preserving request order. -/
def toolNode (registry : List Tool) (messages : List Message) : List Message :=
  messages ++ (pendingToolCalls messages).map (execToolCall registry)

/-- The control states of the agent graphs: the start marker, the agent
node ("assistant" / "tool_calling_llm"), the tool-executor node ("tools"),
and the terminal state (END). -/
inductive GNode where
  | start
  | assistant
  | tools
  | terminal
deriving DecidableEq, Repr

/-- The successor function of the simple-agent.py graph, translated from
its builder calls: `add_edge(START, "assistant")`,
`add_conditional_edges("assistant", tools_condition)`,
`add_edge("tools", "assistant")`. -/
def SimpleAgent.next (node : GNode) (messages : List Message) : GNode :=
  match node with
  | .start => .assistant
  | .assistant => if tools_condition messages = "tools" then .tools else .terminal
  | .tools => .assistant
  | .terminal => .terminal

/-- The successor function of the agent-memory.py graph, translated from
its builder calls: `add_edge(START, "assistant")`,
`add_conditional_edges("assistant", tools_condition)`,
`add_edge("tools", "assistant")`. -/
def AgentMemory.next (node : GNode) (messages : List Message) : GNode :=
  match node with
  | .start => .assistant
  | .assistant => if tools_condition messages = "tools" then .tools else .terminal
  | .tools => .assistant
  | .terminal => .terminal

/-- The successor function of the simple-tool-calling.py graph, translated
from its builder calls: `add_edge(START, "tool_calling_llm")`,
`add_conditional_edges("tool_calling_llm", tools_condition)`,
`add_edge("tools", END)`. -/
def SimpleToolCalling.next (node : GNode) (messages : List Message) : GNode :=
  match node with
  | .start => .assistant
  | .assistant => if tools_condition messages = "tools" then .tools else .terminal
  | .tools => .terminal
  | .terminal => .terminal

/-- C1: the router returns the Tool Executor destination exactly when the
last message carries at least one pending tool-call request, and its only
other outcome is the terminal destination. -/
theorem C1_router_iff_pending (messages : List Message) :
    (tools_condition messages = "tools" ↔ 1 ≤ (pendingToolCalls messages).length)
      ∧ (tools_condition messages = "tools" ∨ tools_condition messages = "__end__") := by
  unfold tools_condition pendingToolCalls
  cases h : messages.getLast? with
  | none => simp
  | some m =>
    cases m with
    | ai c tcs =>
      cases tcs with
      | nil => simp [Message.toolCalls]
      | cons t ts => simp [Message.toolCalls, Nat.succ_le_succ]
    | system c => simp [Message.toolCalls]
    | human c => simp [Message.toolCalls]
    | tool c cid => simp [Message.toolCalls]

/-- C2 counterexample: in the simple-tool-calling.py graph the successor
of the tool-executor node is the terminal state, not the agent node, so
not every agent graph of the repository returns control from the Tool
Executor to the Agent Node. -/
theorem C2_tools_to_end_counterexample :
    SimpleToolCalling.next GNode.tools [] = GNode.terminal
      ∧ SimpleToolCalling.next GNode.tools [] ≠ GNode.assistant := by
  constructor
  · rfl
  · intro h
    exact absurd h (by decide)

/-- C2 amended: the simple-agent.py and agent-memory.py graphs return
control from the Tool Executor to the Agent Node; the simple-tool-calling
graph instead wires the Tool Executor directly to the terminal state. -/
theorem C2_tool_executor_edges (messages : List Message) :
    SimpleAgent.next GNode.tools messages = GNode.assistant
      ∧ AgentMemory.next GNode.tools messages = GNode.assistant
      ∧ SimpleToolCalling.next GNode.tools messages = GNode.terminal :=
  ⟨rfl, rfl, rfl⟩

/-- C4: the registered addition and multiplication tools compute exact
integer addition and multiplication in every script that defines them. -/
theorem C4_add_multiply_exact (a b : Int) :
    SimpleAgent.add a b = a + b
      ∧ SimpleAgent.multiply a b = a * b
      ∧ SimpleToolCalling.add a b = a + b
      ∧ SimpleToolCalling.multiply a b = a * b :=
  ⟨rfl, rfl, rfl, rfl⟩

/-- C5 counterexample: at b = 0 the source's `divide` is unguarded and the
run surfaces Python's raised `ZeroDivisionError` (modelled as the
`Except.error` carrying the exception text); there is no program-defined
error behaviour for division by zero. -/
theorem C5_divide_by_zero_unguarded :
    SimpleAgent.divide 1 0 = Except.error "ZeroDivisionError: division by zero" := rfl

/-- C5 amended: divide(a,b) is the exact quotient a/b whenever b ≠ 0, and
at b = 0 the source raises an unguarded `ZeroDivisionError` (the fault
propagates; the program defines no handling for it). -/
theorem C5_divide_behaviour (a b : Int) :
    (b ≠ 0 → SimpleAgent.divide a b = Except.ok ((a : Rat) / (b : Rat)))
      ∧ (b = 0 → SimpleAgent.divide a b =
          Except.error "ZeroDivisionError: division by zero") := by
  constructor
  · intro hb
    simp [SimpleAgent.divide, hb]
  · intro hb
    simp [SimpleAgent.divide, hb]

/-- C5 witness: the amended behaviour evaluated at (7, 2) and at (7, 0). -/
theorem C5_divide_behaviour_witness :
    SimpleAgent.divide 7 2 = Except.ok ((7 : Rat) / (2 : Rat))
      ∧ SimpleAgent.divide 7 0 = Except.error "ZeroDivisionError: division by zero" :=
  ⟨(C5_divide_behaviour 7 2).1 (by decide), (C5_divide_behaviour 7 0).2 rfl⟩

/-- A resolved tool call is always a Tool Result tagged with the request's
call identifier. -/
theorem execToolCall_resultId (registry : List Tool) (tc : ToolCall) :
    (execToolCall registry tc).resultId = some tc.id := by
  unfold execToolCall
  split
  · split <;> rfl
  · rfl

/-- A resolved tool call carries no tool-call requests of its own. -/
theorem execToolCall_toolCalls (registry : List Tool) (tc : ToolCall) :
    (execToolCall registry tc).toolCalls = [] := by
  unfold execToolCall
  split
  · split <;> rfl
  · rfl

/-- C3: a tool-call request whose name matches no registered tool of the
simple-agent registry resolves to a Tool Result whose content is the
error text (no fault is raised), and the graph continues from the
tool-executor node back to the agent node. -/
theorem C3_unknown_tool_error (tc : ToolCall) (messages : List Message)
    (h : lookupTool SimpleAgent.tools tc.name = none) :
    execToolCall SimpleAgent.tools tc = Message.tool (unknownToolError tc.name) tc.id
      ∧ SimpleAgent.next GNode.tools messages = GNode.assistant := by
  refine ⟨?_, rfl⟩
  unfold execToolCall
  rw [h]

/-- C3 witness: the spec's end-to-end example, an unknown tool named
"subtract". -/
theorem C3_unknown_tool_error_witness :
    lookupTool SimpleAgent.tools "subtract" = none
      ∧ (execToolCall SimpleAgent.tools ⟨"subtract", [("a", 5), ("b", 3)], "call_1"⟩
            = Message.tool (unknownToolError "subtract") "call_1"
          ∧ SimpleAgent.next GNode.tools [] = GNode.assistant) :=
  ⟨rfl, C3_unknown_tool_error ⟨"subtract", [("a", 5), ("b", 3)], "call_1"⟩ [] rfl⟩

/-- C6: on a history whose last message is an assistant turn with pending
requests tcs, the tool executor appends exactly the per-request results,
in request order, and each appended result carries its own request's call
identifier. -/
theorem C6_results_in_request_order (registry : List Tool) (pre : List Message)
    (content : String) (tcs : List ToolCall) :
    toolNode registry (pre ++ [Message.ai content tcs])
        = (pre ++ [Message.ai content tcs]) ++ tcs.map (execToolCall registry)
      ∧ (tcs.map (execToolCall registry)).map Message.resultId
        = tcs.map (fun tc => some tc.id) := by
  constructor
  · unfold toolNode pendingToolCalls
    rw [List.getLast?_concat]
    rfl
  · rw [List.map_map]
    have h : Message.resultId ∘ execToolCall registry = fun tc => some tc.id :=
      funext (execToolCall_resultId registry)
    rw [h]

/-- Whether a message is an assistant (`AIMessage`) message. -/
def isAIMessage : Message → Bool
  | .ai _ _ => true
  | _ => false

/-- The content of a message when it is an assistant message. -/
def aiContent : Message → Option String
  | .ai c _ => some c
  | _ => none

/-- The loop of `src/langgraph/basics/create_react_agent.py` run on an
already-reversed list: take the first assistant message's content and
stop, else keep scanning; `None` if the scan exhausts the list. -/
def finalAnswerRev : List Message → Option String
  | [] => none
  | Message.ai c _ :: _ => some c
  | _ :: rest => finalAnswerRev rest

/-- `final_answer` of `src/langgraph/basics/create_react_agent.py`:
`for message in reversed(messages): if isinstance(message, AIMessage):
final_answer = message.content; break`. -/
def finalAnswer (messages : List Message) : Option String :=
  finalAnswerRev messages.reverse

/-- Scanning for the first match and taking the head of the filtered list
agree. -/
theorem find?_eq_head?_filter (p : Message → Bool) (l : List Message) :
    l.find? p = (l.filter p).head? := by
  induction l with
  | nil => rfl
  | cons m rest ih =>
    by_cases h : p m
    · rw [List.find?_cons_of_pos _ h, List.filter_cons_of_pos h, List.head?_cons]
    · rw [List.find?_cons_of_neg _ h, List.filter_cons_of_neg h, ih]

/-- The reversed scan of the source equals taking the first assistant
message of the reversed list. -/
theorem finalAnswerRev_eq_find? (l : List Message) :
    finalAnswerRev l = (l.find? isAIMessage).bind aiContent := by
  induction l with
  | nil => rfl
  | cons m rest ih =>
    cases m with
    | ai c tcs => simp [finalAnswerRev, isAIMessage, aiContent]
    | system c => simpa [finalAnswerRev, isAIMessage] using ih
    | human c => simpa [finalAnswerRev, isAIMessage] using ih
    | tool c cid => simpa [finalAnswerRev, isAIMessage] using ih

/-- C10: the react-agent script's final-answer extraction returns the
content of the last assistant message of the result list, and `None` when
the list contains no assistant message. -/
theorem C10_final_answer (messages : List Message) :
    finalAnswer messages = ((messages.filter isAIMessage).getLast?).bind aiContent
      ∧ ((∀ m ∈ messages, isAIMessage m = false) → finalAnswer messages = none) := by
  have hmain : finalAnswer messages
      = ((messages.filter isAIMessage).getLast?).bind aiContent := by
    unfold finalAnswer
    rw [finalAnswerRev_eq_find?, find?_eq_head?_filter, List.filter_reverse,
      List.head?_reverse]
  refine ⟨hmain, fun h => ?_⟩
  rw [hmain]
  have hnil : messages.filter isAIMessage = [] := by
    rw [List.filter_eq_nil_iff]
    intro a ha
    rw [h a ha]
    exact Bool.false_ne_true
  rw [hnil]
  rfl

/-- C10 witness: a result list with no assistant message yields `None`. -/
theorem C10_final_answer_witness :
    finalAnswer [Message.human "What is 8 * 7?"] = none :=
  (C10_final_answer [Message.human "What is 8 * 7?"]).2 (by
    intro m hm
    rw [List.mem_singleton] at hm
    subst hm
    rfl)

/-- Modelled from the spec: one execution step of the compiled
simple-agent graph, in state-passing form. The model is abstracted as an
oracle mapping the current history to the assistant response (content and
pending tool-call requests): the Agent Node appends the model's single
response, the Router picks the successor node, the Tool Executor appends
the tool results, and control follows the graph's edges. -/
def stepRun (oracle : List Message → String × List ToolCall) (registry : List Tool) :
    GNode × List Message → GNode × List Message
  | (GNode.start, msgs) => (SimpleAgent.next GNode.start msgs, msgs)
  | (GNode.assistant, msgs) =>
      (SimpleAgent.next GNode.assistant
          (msgs ++ [Message.ai (oracle msgs).1 (oracle msgs).2]),
        msgs ++ [Message.ai (oracle msgs).1 (oracle msgs).2])
  | (GNode.tools, msgs) => (SimpleAgent.next GNode.tools msgs, toolNode registry msgs)
  | (GNode.terminal, msgs) => (GNode.terminal, msgs)

/-- The call identifiers of the tool-call requests carried by one
message. -/
def callIds (m : Message) : List String := m.toolCalls.map ToolCall.id

/-- All call identifiers of tool-call requests occurring in a history, in
history order. -/
def requestIds (messages : List Message) : List String := messages.flatMap callIds

/-- The spec's history invariant: request identifiers are globally
distinct, and every tool-result message's call identifier matches exactly
one tool-call request occurring strictly earlier in the history. -/
def HistoryInv (messages : List Message) : Prop :=
  (requestIds messages).Nodup ∧
  ∀ (i : Nat) (h : i < messages.length) (cid : String),
    (messages.get ⟨i, h⟩).resultId = some cid →
    (requestIds (messages.take i)).count cid = 1

/-- The environment contract on the model: each response's tool-call
identifiers are distinct and not already used by any request of the
history it answers. -/
def FreshOracle (oracle : List Message → String × List ToolCall) : Prop :=
  ∀ messages : List Message,
    (((oracle messages).2.map ToolCall.id).Nodup) ∧
    ∀ cid : String, cid ∈ (oracle messages).2.map ToolCall.id →
      cid ∉ requestIds messages

theorem requestIds_append (l₁ l₂ : List Message) :
    requestIds (l₁ ++ l₂) = requestIds l₁ ++ requestIds l₂ :=
  List.flatMap_append l₁ l₂ callIds

theorem requestIds_cons (m : Message) (l : List Message) :
    requestIds (m :: l) = callIds m ++ requestIds l := by
  simp [requestIds]

theorem requestIds_singleton (m : Message) : requestIds [m] = callIds m := by
  simp [requestIds]

theorem requestIds_eq_nil (l : List Message) (h : ∀ m ∈ l, m.toolCalls = []) :
    requestIds l = [] := by
  induction l with
  | nil => rfl
  | cons m t ih =>
    rw [requestIds_cons, ih (fun x hx => h x (List.mem_cons_of_mem m hx))]
    have hm : callIds m = [] := by
      rw [callIds, h m (List.mem_cons_self m t)]
      rfl
    rw [hm]
    rfl

theorem take_append_left_of_le {α : Type} (l₁ l₂ : List α) (i : Nat)
    (h : i ≤ l₁.length) : (l₁ ++ l₂).take i = l₁.take i := by
  induction l₁ generalizing i with
  | nil =>
    have hi : i = 0 := Nat.le_zero.mp h
    subst hi
    rfl
  | cons a t ih =>
    cases i with
    | zero => rfl
    | succ n =>
      rw [List.cons_append, List.take_succ_cons, List.take_succ_cons,
        ih n (Nat.le_of_succ_le_succ h)]

theorem take_append_add {α : Type} (l₁ l₂ : List α) (k : Nat) :
    (l₁ ++ l₂).take (l₁.length + k) = l₁ ++ l₂.take k := by
  induction l₁ with
  | nil => simp
  | cons a t ih =>
    rw [List.cons_append, List.length_cons, Nat.succ_add, List.take_succ_cons, ih,
      List.cons_append]

theorem pending_id_mem (messages : List Message) (tc : ToolCall)
    (htc : tc ∈ pendingToolCalls messages) : tc.id ∈ requestIds messages := by
  unfold pendingToolCalls at htc
  cases hg : messages.getLast? with
  | none =>
    rw [hg] at htc
    exact absurd htc (List.not_mem_nil tc)
  | some m =>
    rw [hg] at htc
    exact List.mem_flatMap_of_mem (List.mem_of_getLast?_eq_some hg)
      (List.mem_map_of_mem ToolCall.id htc)

theorem HistoryInv_append_ai (msgs : List Message) (c : String) (tcs : List ToolCall)
    (hinv : HistoryInv msgs)
    (hnodup : (tcs.map ToolCall.id).Nodup)
    (hdisj : ∀ cid, cid ∈ tcs.map ToolCall.id → cid ∉ requestIds msgs) :
    HistoryInv (msgs ++ [Message.ai c tcs]) := by
  constructor
  · rw [requestIds_append, requestIds_singleton, List.nodup_append]
    refine ⟨hinv.1, hnodup, ?_⟩
    intro a ha hb
    exact hdisj a hb ha
  · intro i h cid hres
    have hlen : (msgs ++ [Message.ai c tcs]).length = msgs.length + 1 := by
      rw [List.length_append]
      rfl
    by_cases hi : i < msgs.length
    · have hget : (msgs ++ [Message.ai c tcs]).get ⟨i, h⟩ = msgs.get ⟨i, hi⟩ := by
        rw [List.get_eq_getElem, List.get_eq_getElem]
        exact List.getElem_append_left hi
      rw [hget] at hres
      rw [take_append_left_of_le _ _ i (Nat.le_of_lt hi)]
      exact hinv.2 i hi cid hres
    · have h2 : i < msgs.length + 1 := hlen ▸ h
      have hik : i = msgs.length := by omega
      subst hik
      have hget : (msgs ++ [Message.ai c tcs]).get ⟨msgs.length, h⟩
          = Message.ai c tcs := by
        rw [List.get_eq_getElem, List.getElem_append_right (Nat.le_refl _)]
        simp
      rw [hget] at hres
      exact absurd hres (by simp [Message.resultId])

theorem HistoryInv_toolNode (registry : List Tool) (msgs : List Message)
    (hinv : HistoryInv msgs) : HistoryInv (toolNode registry msgs) := by
  have hres_tc : ∀ m ∈ (pendingToolCalls msgs).map (execToolCall registry),
      m.toolCalls = [] := by
    intro m hm
    rcases List.mem_map.mp hm with ⟨tc, htc, hmt⟩
    rw [← hmt]
    exact execToolCall_toolCalls registry tc
  have hreq_nil : requestIds ((pendingToolCalls msgs).map (execToolCall registry)) = [] :=
    requestIds_eq_nil _ hres_tc
  unfold toolNode
  constructor
  · rw [requestIds_append, hreq_nil, List.append_nil]
    exact hinv.1
  · intro i h cid hres
    by_cases hi : i < msgs.length
    · have hget : (msgs ++ (pendingToolCalls msgs).map (execToolCall registry)).get ⟨i, h⟩
          = msgs.get ⟨i, hi⟩ := by
        rw [List.get_eq_getElem, List.get_eq_getElem]
        exact List.getElem_append_left hi
      rw [hget] at hres
      rw [take_append_left_of_le _ _ i (Nat.le_of_lt hi)]
      exact hinv.2 i hi cid hres
    · have hile : msgs.length ≤ i := Nat.le_of_not_lt hi
      have hlen : (msgs ++ (pendingToolCalls msgs).map (execToolCall registry)).length
          = msgs.length + (pendingToolCalls msgs).length := by
        rw [List.length_append, List.length_map]
      have h2 : i < msgs.length + (pendingToolCalls msgs).length := hlen ▸ h
      have hk2 : i - msgs.length < (pendingToolCalls msgs).length := by omega
      have hk : i - msgs.length
          < ((pendingToolCalls msgs).map (execToolCall registry)).length := by
        rw [List.length_map]
        exact hk2
      have hget : (msgs ++ (pendingToolCalls msgs).map (execToolCall registry)).get ⟨i, h⟩
          = execToolCall registry ((pendingToolCalls msgs).get ⟨i - msgs.length, hk2⟩) := by
        rw [List.get_eq_getElem, List.getElem_append_right hile, List.getElem_map]
        rw [List.get_eq_getElem]
      rw [hget, execToolCall_resultId] at hres
      have hcid : cid = ((pendingToolCalls msgs).get ⟨i - msgs.length, hk2⟩).id :=
        (Option.some.inj hres).symm
      have hmem : cid ∈ requestIds msgs := by
        rw [hcid]
        exact pending_id_mem msgs _ (List.get_mem _ _ _)
      have hidecomp : i = msgs.length + (i - msgs.length) :=
        (Nat.add_sub_cancel' hile).symm
      rw [hidecomp, take_append_add, requestIds_append]
      have htake_nil : requestIds
          (((pendingToolCalls msgs).map (execToolCall registry)).take (i - msgs.length))
          = [] := by
        apply requestIds_eq_nil
        intro m hm
        exact hres_tc m (List.mem_of_mem_take hm)
      rw [htake_nil, List.append_nil]
      exact List.count_eq_one_of_mem hinv.1 hmem

/-- C7: in every reachable history of the agent-loop run — after every
Agent Node and Tool Executor step — each tool result's call identifier
matches exactly one earlier tool-call request of the history, under the
environment contract that the model issues pairwise-distinct, globally
fresh call identifiers. -/
theorem C7_result_id_invariant (oracle : List Message → String × List ToolCall)
    (registry : List Tool) (q : String) (hfresh : FreshOracle oracle) (n : Nat) :
    HistoryInv ((stepRun oracle registry)^[n] (GNode.start, [Message.human q])).2 := by
  induction n with
  | zero =>
    rw [Function.iterate_zero_apply]
    constructor
    · rw [requestIds_singleton]
      exact List.nodup_nil
    · intro i h cid hres
      have h1 : i < 1 := by simpa using h
      have hi0 : i = 0 := by omega
      subst hi0
      exact absurd hres (by simp [Message.resultId])
  | succ n ih =>
    rw [Function.iterate_succ_apply']
    rcases hst : (stepRun oracle registry)^[n] (GNode.start, [Message.human q])
      with ⟨node, msgs⟩
    rw [hst] at ih
    cases node with
    | start => exact ih
    | assistant =>
      exact HistoryInv_append_ai msgs (oracle msgs).1 (oracle msgs).2 ih
        (hfresh msgs).1 (hfresh msgs).2
    | tools => exact HistoryInv_toolNode registry msgs ih
    | terminal => exact ih

/-- A model stub that never requests a tool call. -/
def idleOracle : List Message → String × List ToolCall := fun _ => ("done", [])

/-- C7 witness: the invariant after three steps of a run with a model that
requests no tools. -/
theorem C7_result_id_invariant_witness :
    HistoryInv ((stepRun idleOracle SimpleAgent.tools)^[3]
      (GNode.start, [Message.human "Add 3 and 4"])).2 :=
  C7_result_id_invariant idleOracle SimpleAgent.tools "Add 3 and 4"
    (fun _messages => ⟨List.nodup_nil, fun cid hc => absurd hc (List.not_mem_nil cid)⟩) 3

/-- An adversarial model that answers every history with one more pending
tool-call request. -/
def loopOracle : List Message → String × List ToolCall :=
  fun messages =>
    ("", [⟨"add_numbers", [("a", 1), ("b", 1)], "call_" ++ toString messages.length⟩])

theorem tools_condition_concat_ai (msgs : List Message) (c : String)
    (tc : ToolCall) (tcs : List ToolCall) :
    tools_condition (msgs ++ [Message.ai c (tc :: tcs)]) = "tools" := by
  unfold tools_condition
  rw [List.getLast?_concat]
  rfl

theorem stepRun_loopOracle_ne_terminal (registry : List Tool)
    (s : GNode × List Message) (h : s.1 ≠ GNode.terminal) :
    (stepRun loopOracle registry s).1 ≠ GNode.terminal := by
  obtain ⟨node, msgs⟩ := s
  cases node with
  | start =>
    intro hc
    exact GNode.noConfusion hc
  | assistant =>
    have hcond : tools_condition
        (msgs ++ [Message.ai (loopOracle msgs).1 (loopOracle msgs).2]) = "tools" :=
      tools_condition_concat_ai msgs _ _ _
    show SimpleAgent.next GNode.assistant
        (msgs ++ [Message.ai (loopOracle msgs).1 (loopOracle msgs).2]) ≠ GNode.terminal
    unfold SimpleAgent.next
    rw [hcond, if_pos rfl]
    intro hc
    exact GNode.noConfusion hc
  | tools =>
    intro hc
    exact GNode.noConfusion hc
  | terminal => exact absurd rfl h

/-- C8: the loop has no iteration cap: against a model whose every
response carries a pending tool-call request, the simple-agent run never
reaches the terminal state, at any number of steps. -/
theorem C8_no_iteration_cap (n : Nat) :
    ((stepRun loopOracle SimpleAgent.tools)^[n]
      (GNode.start, [Message.human "loop"])).1 ≠ GNode.terminal := by
  induction n with
  | zero =>
    rw [Function.iterate_zero_apply]
    intro hc
    exact GNode.noConfusion hc
  | succ n ih =>
    rw [Function.iterate_succ_apply']
    exact stepRun_loopOracle_ne_terminal SimpleAgent.tools _ ih

/-- Modelled from the spec: one evaluation of the Router returns its
routing decision paired with the history as the evaluation leaves it; the
source condition only reads the last message and mutates nothing, so the
history component is the input history. -/
def routerEval (messages : List Message) : String × List Message :=
  (tools_condition messages, messages)

/-- C9: the Router is deterministic and side-effect-free: an evaluation
leaves the history unchanged, re-evaluating on the resulting history
yields the same decision, and the graph's conditional routing computed
after an evaluation equals the one computed before it. -/
theorem C9_router_pure (messages : List Message) :
    (routerEval messages).2 = messages
      ∧ (routerEval (routerEval messages).2).1 = (routerEval messages).1
      ∧ SimpleAgent.next GNode.assistant (routerEval messages).2
        = SimpleAgent.next GNode.assistant messages :=
  ⟨rfl, rfl, rfl⟩
